import Mathlib

/-!
Verification of the commitment/payment core of a Lightning-style channel
library against its specification.

The development shallowly embeds the Rust sources:
* `lightning/src/util/enforcing_trait_impls.rs` — the signer-enforcement
  wrapper (`EnforcingChannelKeys::sign_remote_commitment`);
* `lightning/src/ln/inbound_payment.rs` — the stateless inbound-payment
  authenticator (`create`, `create_from_hash`, `verify`,
  `get_payment_preimage`);
* `lightning/src/ln/features.rs` — the feature bitfield and its
  `Writeable`/`Readable` instances;
* the `ChannelMonitor` serialization round-trip exercised by
  `fuzz/src/chanmon_deser.rs` and the `LocalCommitmentTransaction`
  HTLC-signature accessor exposed by
  `lightning-c-bindings/src/ln/chan_utils.rs` (their defining modules are
  not among the provided sources and are modelled from the spec where
  noted).

Machine integers are embedded as `Nat` with explicit masking/`% 2 ^ w`
where the source relies on wrapping or truncation; byte strings are
`List Nat`; fallible operations return `Option`/`Except`.
-/

/-! ## Signer-enforcement wrapper (`enforcing_trait_impls.rs`) -/

/-- A commitment transaction as seen by `sign_remote_commitment`: the check
only inspects `commitment_tx.lock_time` and `commitment_tx.input[0].sequence`
(the transaction is required to have exactly one input, which the embedding
builds in).  The rest of the transaction (outputs, amounts, scripts) is
abstracted into `payload`, which only serves to distinguish two different
transactions carrying the same lock-time/sequence pair. -/
structure Transaction where
  lockTime : Nat
  sequence : Nat
  payload : Nat
deriving DecidableEq, Repr

/-- `(commitment_tx.lock_time & 0xffffff) as u64
     | ((commitment_tx.input[0].sequence as u64 & 0xffffff) << 3*8)`
(line 40 of `enforcing_trait_impls.rs`). -/
def obscuredCommitmentNumber (tx : Transaction) : Nat :=
  (tx.lockTime &&& 0xffffff) ||| ((tx.sequence &&& 0xffffff) <<< 24)

/-- The contents of the `commitment_number_obscure_and_last` mutex of an
`EnforcingChannelKeys`: the obscuring factor fixed by the first call (if
any), and the high-water mark of signed commitment numbers. -/
structure EnforcingState where
  obscureFactor : Option Nat
  lastCommitment : Nat
deriving DecidableEq, Repr

/-- `EnforcingChannelKeys::new`: `Mutex::new((None, 0))`. -/
def EnforcingState.start : EnforcingState := ⟨none, 0⟩

/-- One `sign_remote_commitment` call.  Returns `none` when the
`assert!(commitment_number == commitment_data.1 || commitment_number ==
commitment_data.1 + 1)` fires (the call panics and nothing is signed), and
`some (newState, n)` when the call completes, where `n` is the de-obscured
commitment number the underlying signer was invoked at. -/
def signRemoteCommitment (st : EnforcingState) (tx : Transaction) :
    Option (EnforcingState × Nat) :=
  let obscured := obscuredCommitmentNumber tx
  let factor :=
    match st.obscureFactor with
    | none => obscured ^^^ st.lastCommitment
    | some f => f
  let commitmentNumber := obscured ^^^ factor
  if commitmentNumber = st.lastCommitment ∨ commitmentNumber = st.lastCommitment + 1 then
    some (⟨some factor, max commitmentNumber st.lastCommitment⟩, commitmentNumber)
  else
    none

/-- The states an `EnforcingChannelKeys` can be in after a sequence of
completed `sign_remote_commitment` calls. -/
inductive Reachable : EnforcingState → Prop
  | init : Reachable EnforcingState.start
  | step {st : EnforcingState} {tx : Transaction} {st' : EnforcingState} {n : Nat} :
      Reachable st → signRemoteCommitment st tx = some (st', n) → Reachable st'

/-- Runs a sequence of `sign_remote_commitment` calls from a state,
recording each successful signing as `(transaction, de-obscured number)`.
A failed assertion panics (poisoning the mutex), so the run stops there. -/
def runTrace (st : EnforcingState) : List Transaction → List (Transaction × Nat)
  | [] => []
  | tx :: rest =>
    match signRemoteCommitment st tx with
    | some (st', n) => (tx, n) :: runTrace st' rest
    | none => []

/-! ## Inbound payment authenticator (`inbound_payment.rs`)

Byte strings are `List Nat`.  The cryptographic primitives consumed from
the external hash/cipher library (`HmacEngine::<Sha256>`, `Sha256::hash`,
`ChaCha20::get_single_block`) are parameters, bundled in `Crypto`: the
authenticator's logic is independent of their internals and only relies on
them being deterministic functions of their inputs (plus the output-length
facts recorded in `Crypto.Good`). -/

/-- `u64::to_be_bytes` (of the low 64 bits). -/
def toBeBytes8 (n : Nat) : List Nat :=
  [n / 2 ^ 56 % 256, n / 2 ^ 48 % 256, n / 2 ^ 40 % 256, n / 2 ^ 32 % 256,
   n / 2 ^ 24 % 256, n / 2 ^ 16 % 256, n / 2 ^ 8 % 256, n % 256]

/-- `u64::from_be_bytes`. -/
def fromBeBytes (l : List Nat) : Nat :=
  l.foldl (fun acc b => acc * 256 + b) 0

/-- The external primitives: `HMAC-SHA256(key, msg)`, `SHA256(msg)` and
`ChaCha20::get_single_block(key, nonce)` (one 64-byte keystream block). -/
structure Crypto where
  hmacSha256 : List Nat → List Nat → List Nat
  sha256 : List Nat → List Nat
  chachaBlock : List Nat → List Nat → List Nat

/-- Output lengths of the real primitives: HMAC-SHA256 and SHA256 digests
are 32 bytes, a ChaCha20 keystream block is 64 bytes. -/
def Crypto.Good (c : Crypto) : Prop :=
  (∀ k m, (c.hmacSha256 k m).length = 32) ∧
  (∀ m, (c.sha256 m).length = 32) ∧
  (∀ k nonce, (c.chachaBlock k nonce).length = 64)

/-- `ExpandedKey`: the three keys HKDF-expanded from the node's inbound
payment key material (the expansion itself, `hkdf_extract_expand_thrice`,
lives in `util/crypto.rs` and is opaque here — the keys are taken as
given). -/
structure ExpandedKey where
  metadata_key : List Nat
  ldk_pmt_hash_key : List Nat
  user_pmt_hash_key : List Nat
deriving DecidableEq, Repr

/-- `enum Method { LdkPaymentHash = 0, UserPaymentHash = 1 }`. -/
inductive Method
  | LdkPaymentHash
  | UserPaymentHash
deriving DecidableEq, Repr

/-- The discriminant of a `Method` (`Method::LdkPaymentHash as u8` etc.). -/
def Method.toBits : Method → Nat
  | .LdkPaymentHash => 0
  | .UserPaymentHash => 1

/-- `Method::from_bits`. -/
def Method.fromBits (bits : Nat) : Except Nat Method :=
  if bits = Method.toBits .LdkPaymentHash then .ok .LdkPaymentHash
  else if bits = Method.toBits .UserPaymentHash then .ok .UserPaymentHash
  else .error bits

/-- Modelled from the spec: `MAX_VALUE_MSAT` is declared in `ln/msgs.rs`,
which is not among the provided sources.  It is the total money supply —
21 million BTC in millisatoshis — and in particular fits in the low 61 bits
of the metadata as §6 of the spec requires. -/
def MAX_VALUE_MSAT : Nat := 21000000 * 100000000 * 1000

/-- `METHOD_TYPE_OFFSET`: the payment-type bits occupy the top 3 bits of
the first metadata byte. -/
def METHOD_TYPE_OFFSET : Nat := 5

/-- `construct_metadata_bytes`.  The guard `minValueMsat.getD 0 >
MAX_VALUE_MSAT` is the source's `min_value_msat.is_some() &&
min_value_msat.unwrap() > MAX_VALUE_MSAT` (`none.getD 0 = 0` never exceeds
`MAX_VALUE_MSAT`); the expiry addition is `u64` arithmetic, hence the
`% 2 ^ 64`. -/
def constructMetadataBytes (minValueMsat : Option Nat) (paymentType : Method)
    (invoiceExpiryDeltaSecs highestSeenTimestamp : Nat) : Option (List Nat) :=
  if minValueMsat.getD 0 > MAX_VALUE_MSAT then
    none
  else
    let minAmtMsatBytes := toBeBytes8 (minValueMsat.getD 0)
    let minAmtMsatBytes :=
      (minAmtMsatBytes.headD 0 ||| (paymentType.toBits <<< METHOD_TYPE_OFFSET)) ::
        minAmtMsatBytes.tail
    let expiryBytes :=
      toBeBytes8 ((highestSeenTimestamp + invoiceExpiryDeltaSecs + 7200) % 2 ^ 64)
    some (minAmtMsatBytes ++ expiryBytes)

/-- `construct_payment_secret`: the first 16 bytes are the iv, the last 16
are the metadata XORed with a single ChaCha20 keystream block keyed by the
metadata key and the iv. -/
def constructPaymentSecret (c : Crypto) (ivBytes metadataBytes metadataKey : List Nat) :
    List Nat :=
  ivBytes ++ List.zipWith Nat.xor ((c.chachaBlock metadataKey ivBytes).take 16) metadataBytes

/-- `create`: `randBytes` is the fresh randomness drawn from
`keys_manager.get_secure_random_bytes()` (32 bytes, of which the first 16
become the iv).  Returns the `(payment_hash, payment_secret)` pair. -/
def create (c : Crypto) (keys : ExpandedKey) (minValueMsat : Option Nat)
    (invoiceExpiryDeltaSecs highestSeenTimestamp : Nat) (randBytes : List Nat) :
    Option (List Nat × List Nat) :=
  (constructMetadataBytes minValueMsat .LdkPaymentHash invoiceExpiryDeltaSecs
      highestSeenTimestamp).map fun metadataBytes =>
    let ivBytes := randBytes.take 16
    let paymentPreimageBytes :=
      c.hmacSha256 keys.ldk_pmt_hash_key (ivBytes ++ metadataBytes)
    let ldkPmtHash := c.sha256 paymentPreimageBytes
    (ldkPmtHash, constructPaymentSecret c ivBytes metadataBytes keys.metadata_key)

/-- `create_from_hash`: the iv is the first 16 bytes of
`HMAC(user_pmt_hash_key, metadata ‖ payment_hash)`. -/
def createFromHash (c : Crypto) (keys : ExpandedKey) (minValueMsat : Option Nat)
    (paymentHash : List Nat) (invoiceExpiryDeltaSecs highestSeenTimestamp : Nat) :
    Option (List Nat) :=
  (constructMetadataBytes minValueMsat .UserPaymentHash invoiceExpiryDeltaSecs
      highestSeenTimestamp).map fun metadataBytes =>
    let ivBytes :=
      (c.hmacSha256 keys.user_pmt_hash_key (metadataBytes ++ paymentHash)).take 16
    constructPaymentSecret c ivBytes metadataBytes keys.metadata_key

/-- `decrypt_metadata`: splits a payment secret into its iv and the
decrypted 16 metadata bytes. -/
def decryptMetadata (c : Crypto) (paymentSecret : List Nat) (keys : ExpandedKey) :
    List Nat × List Nat :=
  let ivBytes := paymentSecret.take 16
  let encryptedMetadataBytes := paymentSecret.drop 16
  (ivBytes,
    List.zipWith Nat.xor ((c.chachaBlock keys.metadata_key ivBytes).take 16)
      encryptedMetadataBytes)

/-- The payment-type bits of a secret's decrypted metadata:
`(metadata_bytes[0] & 0b1110_0000) >> METHOD_TYPE_OFFSET` (line 187 of
`inbound_payment.rs`, also line 239). -/
def decodedTag (c : Crypto) (paymentSecret : List Nat) (keys : ExpandedKey) : Nat :=
  ((decryptMetadata c paymentSecret keys).2.headD 0 &&& 0b11100000) >>> METHOD_TYPE_OFFSET

/-- The embedded minimum amount of a secret's decrypted metadata: the first
8 metadata bytes with the payment-type bits of byte 0 zeroed, read
big-endian (lines 188–192). -/
def decodedMinAmtMsat (c : Crypto) (paymentSecret : List Nat) (keys : ExpandedKey) : Nat :=
  fromBeBytes
    (((decryptMetadata c paymentSecret keys).2.headD 0 &&& 0b00011111) ::
      ((decryptMetadata c paymentSecret keys).2.take 8).drop 1)

/-- The embedded expiry of a secret's decrypted metadata: metadata bytes
8..16, read big-endian (line 193). -/
def decodedExpiry (c : Crypto) (paymentSecret : List Nat) (keys : ExpandedKey) : Nat :=
  fromBeBytes ((decryptMetadata c paymentSecret keys).2.drop 8)

/-- `derive_ldk_payment_preimage`: recomputes
`HMAC(ldk_pmt_hash_key, iv ‖ metadata)` and errors (returning the bad
preimage bytes) unless its SHA256 equals the payment hash. -/
def deriveLdkPaymentPreimage (c : Crypto) (paymentHash ivBytes metadataBytes : List Nat)
    (keys : ExpandedKey) : Except (List Nat) (List Nat) :=
  let decodedPaymentPreimage :=
    c.hmacSha256 keys.ldk_pmt_hash_key (ivBytes ++ metadataBytes)
  if paymentHash = c.sha256 decodedPaymentPreimage then .ok decodedPaymentPreimage
  else .error decodedPaymentPreimage

/-- `verify`: `none` is the uniform `Err(())` rejection; `some pre?` is
`Ok(payment_preimage)` (`pre?` is `some` exactly for LDK-generated hashes).
The HMAC comparison happens before the amount-floor and expiry checks, as
in the source (`checksAfterAuth` is the code after the `match`, lines
223–233). -/
def verify (c : Crypto) (paymentHash paymentSecret : List Nat)
    (totalMsat highestSeenTimestamp : Nat) (keys : ExpandedKey) :
    Option (Option (List Nat)) :=
  let ivBytes := (decryptMetadata c paymentSecret keys).1
  let metadataBytes := (decryptMetadata c paymentSecret keys).2
  let checksAfterAuth : Option (List Nat) → Option (Option (List Nat)) :=
    fun paymentPreimage =>
      if totalMsat < decodedMinAmtMsat c paymentSecret keys then none
      else if decodedExpiry c paymentSecret keys < highestSeenTimestamp then none
      else some paymentPreimage
  match Method.fromBits (decodedTag c paymentSecret keys) with
  | .ok .UserPaymentHash =>
    if ivBytes =
        (c.hmacSha256 keys.user_pmt_hash_key (metadataBytes ++ paymentHash)).take 16 then
      checksAfterAuth none
    else none
  | .ok .LdkPaymentHash =>
    match deriveLdkPaymentPreimage c paymentHash ivBytes metadataBytes keys with
    | .ok preimage => checksAfterAuth (some preimage)
    | .error _ => none
  | .error _ => none

/-- `util::errors::APIError`, restricted to the one variant
`get_payment_preimage` produces.  The interpolated byte dumps of the
source's `format!` messages are elided. -/
inductive APIError
  | APIMisuseError (err : String)
deriving DecidableEq, Repr

/-- `get_payment_preimage`: re-derives the preimage for `LdkPaymentHash`
payments; every failure is an `APIError::APIMisuseError` (a type distinct
from `verify`'s uniform `Err(())`). -/
def getPaymentPreimage (c : Crypto) (paymentHash paymentSecret : List Nat)
    (keys : ExpandedKey) : Except APIError (List Nat) :=
  match Method.fromBits (decodedTag c paymentSecret keys) with
  | .ok .LdkPaymentHash =>
    match deriveLdkPaymentPreimage c paymentHash
        (decryptMetadata c paymentSecret keys).1
        (decryptMetadata c paymentSecret keys).2 keys with
    | .ok preimage => .ok preimage
    | .error _ =>
      .error (.APIMisuseError "Payment hash did not match decoded preimage")
  | .ok .UserPaymentHash =>
    .error (.APIMisuseError
      "Expected payment type to be LdkPaymentHash, instead got UserPaymentHash")
  | .error _ => .error (.APIMisuseError "Unknown payment type")

/-- The all-zero instantiation of the primitives, used to evaluate the
theorems on concrete inputs. -/
def cZero : Crypto :=
  ⟨fun _ _ => List.replicate 32 0, fun _ => List.replicate 32 0,
   fun _ _ => List.replicate 64 0⟩

/-- A concrete all-zero `ExpandedKey`. -/
def keysZero : ExpandedKey :=
  ⟨List.replicate 32 0, List.replicate 32 0, List.replicate 32 0⟩

/-! ## Feature bitfields (`features.rs`) -/

/-- The three feature contexts of `features.rs`'s `sealed` module. -/
inductive FeatureContext
  | InitContext
  | NodeContext
  | ChannelContext
deriving DecidableEq, Repr

/-- `Features<T>`: the flag bytes, held little-endian in memory (byte 0
carries feature bits 0–7) and tagged by the phantom context. -/
structure Features (ctx : FeatureContext) where
  flags : List Nat
deriving DecidableEq, Repr

/-- `InitFeatures::supported()`: `vec![2 | 1 << 5, 1 << (9-8)]`. -/
def Features.supportedInit : Features .InitContext :=
  ⟨[2 ||| 1 <<< 5, 1 <<< (9 - 8)]⟩

/-- `Writeable for Features<T>`: a 2-byte big-endian length —
`(self.flags.len() as u16)`, which truncates modulo `2 ^ 16` — followed by
the flag bytes in reverse ("Swap back to big-endian"). -/
def Features.write {ctx : FeatureContext} (f : Features ctx) : List Nat :=
  (f.flags.length % 65536) / 256 :: (f.flags.length % 65536) % 256 :: f.flags.reverse

/-- Modelled from the spec (§6): the `u16` and `Vec<u8>` `Readable`
instances live in `util/ser.rs`, which is not among the provided sources;
§6 fixes the layout as a `u16` big-endian length followed by that many
bytes.  Reading fails when the input is shorter than the announced length;
the unconsumed rest of the input is returned alongside the bytes. -/
def readLengthPrefixedBytes (data : List Nat) : Option (List Nat × List Nat) :=
  match data with
  | b0 :: b1 :: rest =>
    if b0 * 256 + b1 ≤ rest.length then
      some (rest.take (b0 * 256 + b1), rest.drop (b0 * 256 + b1))
    else none
  | _ => none

/-- `Readable for Features<T>`: read the length-prefixed byte vector and
`flags.reverse()` back to little-endian. -/
def Features.read (ctx : FeatureContext) (data : List Nat) :
    Option (Features ctx × List Nat) :=
  (readLengthPrefixedBytes data).map fun p => (⟨p.1.reverse⟩, p.2)

/-! ## Local commitment transaction (`chan_utils.rs` via the C bindings)

`LocalCommitmentTransaction` and `get_htlc_sigs` are defined in
`lightning/src/ln/chan_utils.rs`, which is not among the provided sources;
only the C-binding wrapper `LocalCommitmentTransaction_get_htlc_sigs` and
its documentation are.  The entity and the accessor are modelled from the
spec (§3, §4.3). -/

/-- `HTLCOutputInCommitment` (spec §3): `transaction_output_index` is
absent exactly when the HTLC is dust. -/
structure HTLCOutputInCommitment where
  offered : Bool
  amount_msat : Nat
  cltv_expiry : Nat
  payment_hash : List Nat
  transaction_output_index : Option Nat
deriving DecidableEq, Repr

/-- Modelled from the spec: `LocalCommitmentTransaction` (§3) bundles the
unsigned transaction, the counterparty's signature, the feerate, and the
ordered per-HTLC list of `(HTLCOutputInCommitment, optional counterparty
HTLC signature)` pairs.  The transaction and the signatures are abstracted
to `Nat` identifiers — `get_htlc_sigs` treats both opaquely. -/
structure LocalCommitmentTransaction where
  unsigned_tx : Nat
  their_sig : Nat
  feerate_per_kw : Nat
  per_htlc : List (HTLCOutputInCommitment × Option Nat)
deriving DecidableEq, Repr

/-- Modelled from the spec: `get_htlc_sigs(htlc_base_key, local_csv)`
(§4.3 and the C-binding documentation) returns one optional signature per
stored HTLC, in the stored order: `none` for an HTLC whose
`transaction_output_index` is absent (dust), and a signature — produced by
the external signing primitive `sign` over the HTLC and the two key/delay
arguments — for every HTLC with an output index. -/
def getHtlcSigs (sign : HTLCOutputInCommitment → Nat → Nat → Nat)
    (tx : LocalCommitmentTransaction) (htlc_base_key local_csv : Nat) :
    List (Option Nat) :=
  tx.per_htlc.map fun p =>
    match p.1.transaction_output_index with
    | some _ => some (sign p.1 htlc_base_key local_csv)
    | none => none

/-! ## Channel monitor serialization (`channelmonitor.rs` via the fuzz
harness)

`ChannelMonitor`, `write_for_disk` and the matching `read` live in
`lightning/src/ln/channelmonitor.rs`, which is not among the provided
sources; only the fuzz round-trip harness `chanmon_deser.rs`
(deserialize, `write_for_disk`, deserialize again, assert equality) is.
The monitor state and its serialization are modelled from the spec (§3,
§4.5, §6): the state carries the channel's static basepoints, the history
of revealed per-commitment secrets, and the current and previous remote
commitment transaction identifiers, and `write_for_disk` is a pure,
length-prefix-framed function of that state which `read` inverts. -/

/-- Modelled from the spec: the per-channel `ChannelMonitor` state (§3). -/
structure ChannelMonitor where
  basepoints : List Nat
  revealedSecrets : List (Nat × List Nat)
  currentRemoteCommitmentTxid : List Nat
  prevRemoteCommitmentTxid : Option (List Nat)
deriving DecidableEq, Repr

/-- A byte string framed by a `u64` big-endian length prefix. -/
def encBytes (l : List Nat) : List Nat := toBeBytes8 l.length ++ l

/-- Inverse of `encBytes`: reads the length, then that many bytes; fails on
short input; returns the unconsumed rest. -/
def decBytes (data : List Nat) : Option (List Nat × List Nat) :=
  if 8 ≤ data.length ∧ 8 + fromBeBytes (data.take 8) ≤ data.length then
    some ((data.drop 8).take (fromBeBytes (data.take 8)),
      (data.drop 8).drop (fromBeBytes (data.take 8)))
  else none

/-- One revealed per-commitment secret: its commitment number followed by
the framed secret bytes. -/
def encSecret (p : Nat × List Nat) : List Nat := toBeBytes8 p.1 ++ encBytes p.2

/-- Inverse of `encSecret`. -/
def decSecret (data : List Nat) : Option ((Nat × List Nat) × List Nat) :=
  if 8 ≤ data.length then
    (decBytes (data.drop 8)).map fun p => ((fromBeBytes (data.take 8), p.1), p.2)
  else none

/-- Reads `n` encoded secrets. -/
def decSecrets : Nat → List Nat → Option (List (Nat × List Nat) × List Nat)
  | 0, data => some ([], data)
  | n + 1, data =>
    (decSecret data).bind fun p =>
      (decSecrets n p.2).map fun q => (p.1 :: q.1, q.2)

/-- An optional byte string: a presence tag, then the framed bytes. -/
def encOptBytes : Option (List Nat) → List Nat
  | none => [0]
  | some l => 1 :: encBytes l

/-- Inverse of `encOptBytes`. -/
def decOptBytes (data : List Nat) : Option (Option (List Nat) × List Nat) :=
  match data with
  | 0 :: rest => some (none, rest)
  | 1 :: rest => (decBytes rest).map fun p => (some p.1, p.2)
  | _ => none

/-- Modelled from the spec: `write_for_disk` — a pure function of the
monitor state (§4.5), emitting each field in order. -/
def ChannelMonitor.writeForDisk (m : ChannelMonitor) : List Nat :=
  encBytes m.basepoints ++
    (toBeBytes8 m.revealedSecrets.length ++ (m.revealedSecrets.map encSecret).flatten) ++
    encBytes m.currentRemoteCommitmentTxid ++
    encOptBytes m.prevRemoteCommitmentTxid

/-- Modelled from the spec: the `read` that "must accept exactly what
`write_for_disk` produced and reconstruct an equal value" (§6). -/
def ChannelMonitor.readFromDisk (data : List Nat) :
    Option (ChannelMonitor × List Nat) :=
  (decBytes data).bind fun pb =>
    if 8 ≤ pb.2.length then
      (decSecrets (fromBeBytes (pb.2.take 8)) (pb.2.drop 8)).bind fun ps =>
        (decBytes ps.2).bind fun pc =>
          (decOptBytes pc.2).map fun pp =>
            (⟨pb.1, ps.1, pc.1, pp.1⟩, pp.2)
    else none

/-- The states a monitor can actually be in: every stored length and
commitment number fits in a `u64`, as in the Rust source where they are
`usize`/`u64` values. -/
def ChannelMonitor.WellFormed (m : ChannelMonitor) : Prop :=
  m.basepoints.length < 2 ^ 64 ∧
  m.revealedSecrets.length < 2 ^ 64 ∧
  (∀ p ∈ m.revealedSecrets, p.1 < 2 ^ 64 ∧ p.2.length < 2 ^ 64) ∧
  m.currentRemoteCommitmentTxid.length < 2 ^ 64 ∧
  (∀ l, m.prevRemoteCommitmentTxid = some l → l.length < 2 ^ 64)

theorem signRemoteCommitment_accepted_ge {st : EnforcingState} {tx : Transaction}
    {st' : EnforcingState} {n : Nat} (h : signRemoteCommitment st tx = some (st', n)) :
    st.lastCommitment ≤ n ∧ st'.lastCommitment = n := by
  simp only [signRemoteCommitment] at h
  split at h
  · next hacc =>
    simp only [Option.some.injEq, Prod.mk.injEq] at h
    obtain ⟨hst', hn⟩ := h
    subst hn
    refine ⟨by omega, ?_⟩
    rw [← hst']
    simp only
    omega
  · exact absurd h (by simp)

/-! ## Helper lemmas for the signer wrapper -/

theorem runTrace_numbers_chain (txs : List Transaction) (st : EnforcingState) :
    List.Chain' (· ≤ ·) (st.lastCommitment :: (runTrace st txs).map Prod.snd) := by
  induction txs generalizing st with
  | nil => simp [runTrace]
  | cons tx rest ih =>
    unfold runTrace
    cases hsign : signRemoteCommitment st tx with
    | none => simp
    | some res =>
      obtain ⟨st', n⟩ := res
      obtain ⟨hle, hst'⟩ := signRemoteCommitment_accepted_ge hsign
      have := ih st'
      rw [hst'] at this
      simpa [List.chain'_cons] using ⟨hle, this⟩

/-! ## Claim theorems for the signer wrapper -/

/-- C1: once the first `sign_remote_commitment` call has fixed the obscuring
mask `f`, a call whose de-obscured commitment number (the XOR of the
transaction's obscured number with `f`) equals the stored last signed number
or that number plus one is accepted and produces a signature, while a call
whose de-obscured number is two or more below, or two or more above, the
last signed number makes the assertion fire (`none`) without signing. -/
theorem sign_remote_commitment_accepts_same_or_next_and_aborts_far
    (st : EnforcingState) (f : Nat) (tx : Transaction)
    (_hreach : Reachable st) (hf : st.obscureFactor = some f) :
    ((obscuredCommitmentNumber tx ^^^ f = st.lastCommitment ∨
      obscuredCommitmentNumber tx ^^^ f = st.lastCommitment + 1) →
      signRemoteCommitment st tx =
        some (⟨some f, max (obscuredCommitmentNumber tx ^^^ f) st.lastCommitment⟩,
          obscuredCommitmentNumber tx ^^^ f)) ∧
    (((obscuredCommitmentNumber tx ^^^ f) + 2 ≤ st.lastCommitment ∨
      st.lastCommitment + 2 ≤ obscuredCommitmentNumber tx ^^^ f) →
      signRemoteCommitment st tx = none) := by
  simp only [signRemoteCommitment, hf]
  constructor
  · intro h
    rw [if_pos h]
  · intro h
    have hne : ¬(obscuredCommitmentNumber tx ^^^ f = st.lastCommitment ∨
        obscuredCommitmentNumber tx ^^^ f = st.lastCommitment + 1) := by omega
    rw [if_neg hne]

/-- Witness for C1: in the state reached after one call (mask fixed to `5`,
last signed number `0`), a transaction de-obscuring to `1` is signed and a
transaction de-obscuring to `2` aborts. -/
theorem sign_remote_commitment_accepts_same_or_next_and_aborts_far_witness :
    signRemoteCommitment ⟨some 5, 0⟩ ⟨4, 0, 0⟩ =
      some (⟨some 5, max (obscuredCommitmentNumber ⟨4, 0, 0⟩ ^^^ 5) 0⟩,
        obscuredCommitmentNumber ⟨4, 0, 0⟩ ^^^ 5) ∧
    signRemoteCommitment ⟨some 5, 0⟩ ⟨7, 0, 0⟩ = none := by
  have hreach : Reachable ⟨some 5, 0⟩ :=
    @Reachable.step EnforcingState.start ⟨5, 0, 0⟩ ⟨some 5, 0⟩ 0 Reachable.init (by decide)
  exact ⟨(sign_remote_commitment_accepts_same_or_next_and_aborts_far
            ⟨some 5, 0⟩ 5 ⟨4, 0, 0⟩ hreach rfl).1 (by decide),
         (sign_remote_commitment_accepts_same_or_next_and_aborts_far
            ⟨some 5, 0⟩ 5 ⟨7, 0, 0⟩ hreach rfl).2 (by decide)⟩

/-- C2 counterexample: two transactions that differ (in `payload`) but carry
the same lock-time/sequence pair are both signed, at the same de-obscured
commitment number `0`, in one run of the wrapper — the assertion admits a
repeat of the current number and never inspects the rest of the
transaction. -/
theorem two_different_txs_signed_at_same_height :
    (⟨5, 0, 0⟩ : Transaction) ≠ ⟨5, 0, 1⟩ ∧
    runTrace EnforcingState.start [⟨5, 0, 0⟩, ⟨5, 0, 1⟩] =
      [(⟨5, 0, 0⟩, 0), (⟨5, 0, 1⟩, 0)] := by decide

/-- C2 (amended): across every sequence of `sign_remote_commitment` calls the
sequence of signed de-obscured commitment numbers is non-decreasing — a
commitment is never signed at a number strictly below a previously signed
one (the wrapper does not, however, prevent two different transactions from
being signed at the same number). -/
theorem runTrace_signed_numbers_monotone (txs : List Transaction) :
    List.Chain' (· ≤ ·) ((runTrace EnforcingState.start txs).map Prod.snd) :=
  (runTrace_numbers_chain txs EnforcingState.start).tail

/-- C3: every completed `sign_remote_commitment` call advances the stored
high-water mark to the maximum of its previous value and the de-obscured
commitment number of the call, so the mark never moves backward. -/
theorem high_water_mark_advances_to_max
    (st : EnforcingState) (tx : Transaction) (st' : EnforcingState) (n : Nat)
    (h : signRemoteCommitment st tx = some (st', n)) :
    st'.lastCommitment = max n st.lastCommitment ∧
    st.lastCommitment ≤ st'.lastCommitment := by
  simp only [signRemoteCommitment] at h
  split at h
  · next hacc =>
    simp only [Option.some.injEq, Prod.mk.injEq] at h
    obtain ⟨hst', hn⟩ := h
    subst hn
    rw [← hst']
    exact ⟨rfl, Nat.le_max_right _ _⟩
  · exact absurd h (by simp)

/-- Witness for C3 at a concrete completed call. -/
theorem high_water_mark_advances_to_max_witness :
    (⟨some 5, 1⟩ : EnforcingState).lastCommitment =
      max 1 (⟨some 5, 0⟩ : EnforcingState).lastCommitment ∧
    (⟨some 5, 0⟩ : EnforcingState).lastCommitment ≤
      (⟨some 5, 1⟩ : EnforcingState).lastCommitment :=
  high_water_mark_advances_to_max ⟨some 5, 0⟩ ⟨4, 0, 0⟩ ⟨some 5, 1⟩ 1 (by decide)

/-! ## Helper lemmas for the payment authenticator -/

theorem toBeBytes8_length (n : Nat) : (toBeBytes8 n).length = 8 := rfl

theorem fromBeBytes_toBeBytes8 {n : Nat} (h : n < 2 ^ 64) :
    fromBeBytes (toBeBytes8 n) = n := by
  simp only [toBeBytes8, fromBeBytes, List.foldl]
  omega

theorem zipWith_xor_cancel :
    ∀ (b m : List Nat), m.length ≤ b.length →
      List.zipWith Nat.xor b (List.zipWith Nat.xor b m) = m
  | _, [], _ => by simp
  | [], x :: xs, h => by simp at h
  | a :: as, x :: xs, h => by
    simp only [List.zipWith, List.cons.injEq]
    exact ⟨Nat.xor_cancel_left a x, zipWith_xor_cancel as xs (by simpa using h)⟩

theorem decryptMetadata_constructPaymentSecret (c : Crypto) (keys : ExpandedKey)
    (iv md : List Nat) (hiv : iv.length = 16) (hmd : md.length = 16)
    (hblock : 16 ≤ (c.chachaBlock keys.metadata_key iv).length) :
    decryptMetadata c (constructPaymentSecret c iv md keys.metadata_key) keys =
      (iv, md) := by
  have htake : (constructPaymentSecret c iv md keys.metadata_key).take 16 = iv := by
    rw [constructPaymentSecret, ← hiv, List.take_left]
  have hdrop : (constructPaymentSecret c iv md keys.metadata_key).drop 16 =
      List.zipWith Nat.xor ((c.chachaBlock keys.metadata_key iv).take 16) md := by
    rw [constructPaymentSecret, ← hiv, List.drop_left]
  simp only [decryptMetadata, htake, hdrop]
  refine Prod.ext rfl ?_
  refine zipWith_xor_cancel _ _ ?_
  rw [List.length_take]
  omega

theorem create_components (c : Crypto) (keys : ExpandedKey) (minValueMsat : Option Nat)
    (delta hst : Nat) (rand : List Nat) (h s : List Nat)
    (hGood : c.Good) (hrand : 16 ≤ rand.length)
    (hcreate : create c keys minValueMsat delta hst rand = some (h, s)) :
    decodedTag c s keys = 0 ∧
    decodedMinAmtMsat c s keys = minValueMsat.getD 0 ∧
    decodedExpiry c s keys = (hst + delta + 7200) % 2 ^ 64 ∧
    ∃ pre, c.sha256 pre = h ∧
      ∀ total hst',
        verify c h s total hst' keys =
          if total < minValueMsat.getD 0 then none
          else if (hst + delta + 7200) % 2 ^ 64 < hst' then none
          else some (some pre) := by
  obtain ⟨hc1, hc2, hc3⟩ := hGood
  simp only [create] at hcreate
  cases hmdc : constructMetadataBytes minValueMsat .LdkPaymentHash delta hst with
  | none => rw [hmdc] at hcreate; simp at hcreate
  | some md =>
  rw [hmdc, Option.map_some'] at hcreate
  simp only [Option.some.injEq, Prod.mk.injEq] at hcreate
  obtain ⟨hh, hs⟩ := hcreate
  rw [constructMetadataBytes] at hmdc
  by_cases hguard : minValueMsat.getD 0 > MAX_VALUE_MSAT
  · rw [if_pos hguard] at hmdc; simp at hmdc
  · rw [if_neg hguard] at hmdc
    simp only [Option.some.injEq] at hmdc
    rw [MAX_VALUE_MSAT] at hguard
    have hmd_eq : md =
        toBeBytes8 (minValueMsat.getD 0) ++
          toBeBytes8 ((hst + delta + 7200) % 2 ^ 64) := by
      rw [← hmdc]
      simp [toBeBytes8, Method.toBits, METHOD_TYPE_OFFSET, Nat.zero_shiftLeft,
        Nat.or_zero]
    have hivlen : (rand.take 16).length = 16 := by
      rw [List.length_take]; omega
    have hmdlen : md.length = 16 := by
      rw [hmd_eq]; simp [toBeBytes8]
    have hdec : decryptMetadata c s keys = (rand.take 16, md) := by
      rw [← hs]
      exact decryptMetadata_constructPaymentSecret c keys _ _ hivlen hmdlen
        (by rw [hc3]; omega)
    have hb0 : md.headD 0 = minValueMsat.getD 0 / 2 ^ 56 % 256 := by
      rw [hmd_eq]; simp [toBeBytes8]
    have hb0lt : minValueMsat.getD 0 / 2 ^ 56 % 256 < 32 := by omega
    have htake8 : md.take 8 = toBeBytes8 (minValueMsat.getD 0) := by
      rw [hmd_eq, ← toBeBytes8_length (minValueMsat.getD 0), List.take_left]
    have hdrop8 : md.drop 8 = toBeBytes8 ((hst + delta + 7200) % 2 ^ 64) := by
      rw [hmd_eq, ← toBeBytes8_length (minValueMsat.getD 0), List.drop_left]
    have htag : decodedTag c s keys = 0 := by
      rw [decodedTag, hdec]
      simp only [hb0]
      have hball : ∀ x < 32, x &&& 0b11100000 = 0 := by decide
      rw [hball _ hb0lt]
      simp [METHOD_TYPE_OFFSET]
    have hmin : decodedMinAmtMsat c s keys = minValueMsat.getD 0 := by
      rw [decodedMinAmtMsat, hdec]
      simp only [hb0, htake8]
      have hball : ∀ x < 32, x &&& 0b00011111 = x := by decide
      rw [hball _ hb0lt]
      simp only [toBeBytes8, List.drop_one, List.tail_cons, fromBeBytes, List.foldl]
      omega
    have hexp : decodedExpiry c s keys = (hst + delta + 7200) % 2 ^ 64 := by
      rw [decodedExpiry, hdec]
      simp only [hdrop8]
      exact fromBeBytes_toBeBytes8 (Nat.mod_lt _ (by norm_num))
    refine ⟨htag, hmin, hexp,
      c.hmacSha256 keys.ldk_pmt_hash_key (rand.take 16 ++ md), hh, ?_⟩
    intro total hst'
    rw [verify, htag]
    simp only [hdec]
    rw [show Method.fromBits 0 = .ok .LdkPaymentHash from rfl]
    rw [deriveLdkPaymentPreimage]
    simp only [← hh, if_pos rfl]
    rw [hmin, hexp]
    simp

theorem createFromHash_decodedExpiry (c : Crypto) (keys : ExpandedKey)
    (minValueMsat : Option Nat) (ph : List Nat) (delta hst : Nat) (s : List Nat)
    (hGood : c.Good)
    (hcfh : createFromHash c keys minValueMsat ph delta hst = some s) :
    decodedExpiry c s keys = (hst + delta + 7200) % 2 ^ 64 := by
  obtain ⟨hc1, hc2, hc3⟩ := hGood
  simp only [createFromHash] at hcfh
  cases hmdc : constructMetadataBytes minValueMsat .UserPaymentHash delta hst with
  | none => rw [hmdc] at hcfh; simp at hcfh
  | some md =>
  rw [hmdc, Option.map_some'] at hcfh
  simp only [Option.some.injEq] at hcfh
  rw [constructMetadataBytes] at hmdc
  by_cases hguard : minValueMsat.getD 0 > MAX_VALUE_MSAT
  · rw [if_pos hguard] at hmdc; simp at hmdc
  · rw [if_neg hguard] at hmdc
    simp only [Option.some.injEq] at hmdc
    have hmd_eq : md =
        (((toBeBytes8 (minValueMsat.getD 0)).headD 0 |||
            Method.UserPaymentHash.toBits <<< METHOD_TYPE_OFFSET) ::
          (toBeBytes8 (minValueMsat.getD 0)).tail) ++
          toBeBytes8 ((hst + delta + 7200) % 2 ^ 64) := by
      rw [← hmdc]
    have hfront : ((((toBeBytes8 (minValueMsat.getD 0)).headD 0 |||
          Method.UserPaymentHash.toBits <<< METHOD_TYPE_OFFSET) ::
        (toBeBytes8 (minValueMsat.getD 0)).tail) : List Nat).length = 8 := by
      simp [toBeBytes8]
    have hmdlen : md.length = 16 := by
      rw [hmd_eq, List.length_append, hfront]
      simp [toBeBytes8]
    have hivlen :
        ((c.hmacSha256 keys.user_pmt_hash_key (md ++ ph)).take 16).length = 16 := by
      rw [List.length_take, hc1]
      omega
    have hdec : decryptMetadata c s keys =
        ((c.hmacSha256 keys.user_pmt_hash_key (md ++ ph)).take 16, md) := by
      rw [← hcfh]
      exact decryptMetadata_constructPaymentSecret c keys _ _ hivlen hmdlen
        (by rw [hc3]; omega)
    rw [decodedExpiry, hdec]
    have hdrop8 : md.drop 8 = toBeBytes8 ((hst + delta + 7200) % 2 ^ 64) := by
      rw [hmd_eq, ← hfront, List.drop_left]
    simp only [hdrop8]
    exact fromBeBytes_toBeBytes8 (Nat.mod_lt _ (by norm_num))

theorem fromBits_cases (t : Nat) :
    (t = 0 ∧ Method.fromBits t = .ok .LdkPaymentHash) ∨
    (t = 1 ∧ Method.fromBits t = .ok .UserPaymentHash) ∨
    (t ≠ 0 ∧ t ≠ 1 ∧ Method.fromBits t = .error t) := by
  by_cases h0 : t = 0
  · subst h0; exact Or.inl ⟨rfl, rfl⟩
  · by_cases h1 : t = 1
    · subst h1; exact Or.inr (Or.inl ⟨rfl, rfl⟩)
    · refine Or.inr (Or.inr ⟨h0, h1, ?_⟩)
      rw [Method.fromBits, if_neg (by simpa [Method.toBits] using h0),
        if_neg (by simpa [Method.toBits] using h1)]

theorem cZero_good : cZero.Good :=
  ⟨fun _ _ => rfl, fun _ => rfl, fun _ _ => rfl⟩

/-! ## Claim theorems for the payment authenticator -/

/-- C4: if `create` returns `(payment_hash, payment_secret)`, then `verify`
of that pair with a `total_msat` at least the embedded floor and a
`highest_seen_timestamp` not past the embedded expiry returns `Ok` with
`Some preimage` whose SHA256 equals the payment hash. -/
theorem create_then_verify_returns_matching_preimage
    (c : Crypto) (keys : ExpandedKey) (minValueMsat : Option Nat)
    (delta hst : Nat) (rand : List Nat) (h s : List Nat) (total hst' : Nat)
    (hGood : c.Good) (hrand : 16 ≤ rand.length)
    (hcreate : create c keys minValueMsat delta hst rand = some (h, s))
    (htotal : decodedMinAmtMsat c s keys ≤ total)
    (hexp : hst' ≤ decodedExpiry c s keys) :
    ∃ pre, verify c h s total hst' keys = some (some pre) ∧ c.sha256 pre = h := by
  obtain ⟨-, hmin, hexpv, pre, hsha, hverify⟩ :=
    create_components c keys minValueMsat delta hst rand h s hGood hrand hcreate
  rw [hmin] at htotal
  rw [hexpv] at hexp
  refine ⟨pre, ?_, hsha⟩
  rw [hverify total hst', if_neg (by omega), if_neg (by omega)]

/-- Witness for C4 with the all-zero primitives: a payment created with
floor 42 msat, expiry delta 10 and timestamp 1000 verifies at total 50 and
timestamp 2000. -/
theorem create_then_verify_returns_matching_preimage_witness :
    ∃ pre,
      verify cZero (List.replicate 32 0)
        (List.replicate 16 7 ++ [0, 0, 0, 0, 0, 0, 0, 42, 0, 0, 0, 0, 0, 0, 32, 18])
        50 2000 keysZero = some (some pre) ∧
      cZero.sha256 pre = List.replicate 32 0 :=
  create_then_verify_returns_matching_preimage cZero keysZero (some 42) 10 1000
    (List.replicate 32 7) (List.replicate 32 0)
    (List.replicate 16 7 ++ [0, 0, 0, 0, 0, 0, 0, 42, 0, 0, 0, 0, 0, 0, 32, 18])
    50 2000 cZero_good (by decide) (by decide) (by decide) (by decide)

/-- C5: `verify` returns the uniform rejection `none` exactly when the
payment-type tag of the decrypted metadata is unrecognized, the recomputed
HMAC does not match (for `UserPaymentHash` the iv, for `LdkPaymentHash` the
SHA256 of the re-derived preimage against the payment hash), the received
total is below the embedded floor, or the embedded expiry is before
`highest_seen_timestamp`. -/
theorem verify_rejects_iff (c : Crypto) (keys : ExpandedKey)
    (paymentHash paymentSecret : List Nat) (totalMsat hst : Nat) :
    verify c paymentHash paymentSecret totalMsat hst keys = none ↔
      ((decodedTag c paymentSecret keys ≠ 0 ∧ decodedTag c paymentSecret keys ≠ 1) ∨
        (decodedTag c paymentSecret keys = 1 ∧
          (decryptMetadata c paymentSecret keys).1 ≠
            (c.hmacSha256 keys.user_pmt_hash_key
              ((decryptMetadata c paymentSecret keys).2 ++ paymentHash)).take 16) ∨
        (decodedTag c paymentSecret keys = 0 ∧
          paymentHash ≠
            c.sha256 (c.hmacSha256 keys.ldk_pmt_hash_key
              ((decryptMetadata c paymentSecret keys).1 ++
                (decryptMetadata c paymentSecret keys).2))) ∨
        totalMsat < decodedMinAmtMsat c paymentSecret keys ∨
        decodedExpiry c paymentSecret keys < hst) := by
  rcases fromBits_cases (decodedTag c paymentSecret keys) with
    ⟨ht, hfb⟩ | ⟨ht, hfb⟩ | ⟨ht0, ht1, hfb⟩
  · rw [verify, hfb, deriveLdkPaymentPreimage, ht]
    by_cases hmac : paymentHash =
        c.sha256 (c.hmacSha256 keys.ldk_pmt_hash_key
          ((decryptMetadata c paymentSecret keys).1 ++
            (decryptMetadata c paymentSecret keys).2))
    · rw [if_pos hmac]
      by_cases hamt : totalMsat < decodedMinAmtMsat c paymentSecret keys
      · simp [hamt]
      · by_cases hexp : decodedExpiry c paymentSecret keys < hst
        · simp [hamt, hexp]
        · simp [hamt, hexp, hmac]
    · rw [if_neg hmac]
      simp [hmac]
  · rw [verify, hfb, ht]
    by_cases hiv : (decryptMetadata c paymentSecret keys).1 =
        (c.hmacSha256 keys.user_pmt_hash_key
          ((decryptMetadata c paymentSecret keys).2 ++ paymentHash)).take 16
    · rw [if_pos hiv]
      by_cases hamt : totalMsat < decodedMinAmtMsat c paymentSecret keys
      · simp [hamt]
      · by_cases hexp : decodedExpiry c paymentSecret keys < hst
        · simp [hamt, hexp]
        · simp [hamt, hexp, hiv]
    · rw [if_neg hiv]
      simp [hiv]
  · rw [verify, hfb]
    simp [ht0, ht1]

/-- C9: `get_payment_preimage` returns the caller-misuse
`APIError.APIMisuseError` — a type distinct from `verify`'s uniform
`Err(())` — on every secret whose decrypted metadata carries the
`UserPaymentHash` tag, and returns a preimage only for
`LdkPaymentHash`-tagged secrets whose re-derived preimage hashes to the
given payment hash. -/
theorem get_payment_preimage_user_hash_misuse_and_ldk_only
    (c : Crypto) (keys : ExpandedKey) (paymentHash paymentSecret : List Nat) :
    (decodedTag c paymentSecret keys = 1 →
      getPaymentPreimage c paymentHash paymentSecret keys =
        .error (.APIMisuseError
          "Expected payment type to be LdkPaymentHash, instead got UserPaymentHash")) ∧
    ∀ pre, getPaymentPreimage c paymentHash paymentSecret keys = .ok pre →
      decodedTag c paymentSecret keys = 0 ∧ c.sha256 pre = paymentHash := by
  constructor
  · intro h1
    rw [getPaymentPreimage, h1, show Method.fromBits 1 = .ok .UserPaymentHash from rfl]
  · intro pre hok
    rcases fromBits_cases (decodedTag c paymentSecret keys) with
      ⟨ht, hfb⟩ | ⟨ht, hfb⟩ | ⟨ht0, ht1, hfb⟩
    · rw [getPaymentPreimage, hfb, deriveLdkPaymentPreimage] at hok
      by_cases hmac : paymentHash =
          c.sha256 (c.hmacSha256 keys.ldk_pmt_hash_key
            ((decryptMetadata c paymentSecret keys).1 ++
              (decryptMetadata c paymentSecret keys).2))
      · rw [if_pos hmac] at hok
        simp only [Except.ok.injEq] at hok
        exact ⟨ht, by rw [← hok, ← hmac]⟩
      · rw [if_neg hmac] at hok
        simp at hok
    · rw [getPaymentPreimage, hfb] at hok
      simp at hok
    · rw [getPaymentPreimage, hfb] at hok
      simp at hok

/-- Witness for C9: a secret decrypting to a `UserPaymentHash`-tagged
metadata block draws the misuse error. -/
theorem get_payment_preimage_user_hash_misuse_and_ldk_only_witness :
    getPaymentPreimage cZero []
      (List.replicate 16 0 ++ 32 :: List.replicate 15 0) keysZero =
      .error (.APIMisuseError
        "Expected payment type to be LdkPaymentHash, instead got UserPaymentHash") :=
  (get_payment_preimage_user_hash_misuse_and_ldk_only cZero keysZero []
    (List.replicate 16 0 ++ 32 :: List.replicate 15 0)).1 (by decide)

/-- C10: the expiry embedded by `create` and `create_from_hash` equals
`highest_seen_timestamp + invoice_expiry_delta_secs + 7200` (absent `u64`
overflow), and `verify` accepts a matching payment exactly while the
current `highest_seen_timestamp` does not exceed that sum, rejecting it as
expired only afterwards. -/
theorem embedded_expiry_and_acceptance_window
    (c : Crypto) (keys : ExpandedKey) (minValueMsat : Option Nat)
    (delta hst : Nat) (hE : hst + delta + 7200 < 2 ^ 64) :
    (∀ rand h s, c.Good → 16 ≤ rand.length →
      create c keys minValueMsat delta hst rand = some (h, s) →
      decodedExpiry c s keys = hst + delta + 7200 ∧
      ∀ total hst', decodedMinAmtMsat c s keys ≤ total →
        (hst' ≤ hst + delta + 7200 → (verify c h s total hst' keys).isSome = true) ∧
        (hst + delta + 7200 < hst' → verify c h s total hst' keys = none)) ∧
    (∀ ph s, c.Good → createFromHash c keys minValueMsat ph delta hst = some s →
      decodedExpiry c s keys = hst + delta + 7200) := by
  have hmod : (hst + delta + 7200) % 2 ^ 64 = hst + delta + 7200 := Nat.mod_eq_of_lt hE
  constructor
  · intro rand h s hGood hrand hcreate
    obtain ⟨-, hmin, hexp, pre, -, hverify⟩ :=
      create_components c keys minValueMsat delta hst rand h s hGood hrand hcreate
    rw [hmod] at hexp
    refine ⟨hexp, ?_⟩
    intro total hst' htotal
    rw [hmin] at htotal
    constructor
    · intro hle
      rw [hverify total hst', hmod, if_neg (by omega), if_neg (by omega)]
      rfl
    · intro hgt
      rw [hverify total hst', hmod, if_neg (by omega), if_pos (by omega)]
  · intro ph s hGood hcfh
    rw [createFromHash_decodedExpiry c keys minValueMsat ph delta hst s hGood hcfh, hmod]

/-- Witness for C10: with timestamp 1000 and delta 10 the embedded expiry
is 8210; verification succeeds at timestamp 8210 and fails at 8211. -/
theorem embedded_expiry_and_acceptance_window_witness :
    decodedExpiry cZero
      (List.replicate 16 7 ++ [0, 0, 0, 0, 0, 0, 0, 42, 0, 0, 0, 0, 0, 0, 32, 18])
      keysZero = 8210 ∧
    (verify cZero (List.replicate 32 0)
      (List.replicate 16 7 ++ [0, 0, 0, 0, 0, 0, 0, 42, 0, 0, 0, 0, 0, 0, 32, 18])
      50 8210 keysZero).isSome = true ∧
    verify cZero (List.replicate 32 0)
      (List.replicate 16 7 ++ [0, 0, 0, 0, 0, 0, 0, 42, 0, 0, 0, 0, 0, 0, 32, 18])
      50 8211 keysZero = none := by
  obtain ⟨hfst, -⟩ :=
    embedded_expiry_and_acceptance_window cZero keysZero (some 42) 10 1000 (by decide)
  obtain ⟨hexp, hwin⟩ := hfst (List.replicate 32 7) (List.replicate 32 0)
    (List.replicate 16 7 ++ [0, 0, 0, 0, 0, 0, 0, 42, 0, 0, 0, 0, 0, 0, 32, 18])
    cZero_good (by decide) (by decide)
  exact ⟨hexp, (hwin 50 8210 (by decide)).1 (by decide), (hwin 50 8211 (by decide)).2 (by decide)⟩

/-! ## Claim theorems for feature bitfields -/

/-- C7 counterexample: a `Features` value with 65536 flag bytes does not
round-trip — `flags.len() as u16` truncates the length prefix to 0, so
reading the written bytes yields the empty feature set. -/
theorem features_write_read_not_id_on_65536 :
    (Features.read .InitContext
        (Features.write (⟨List.replicate 65536 0⟩ : Features .InitContext))).map
        (fun p => p.1) ≠
      some (⟨List.replicate 65536 0⟩ : Features .InitContext) := by
  have h1 : Features.write (⟨List.replicate 65536 0⟩ : Features .InitContext) =
      0 :: 0 :: (List.replicate 65536 0).reverse := by
    rw [Features.write]
    rw [show (⟨List.replicate 65536 0⟩ : Features .InitContext).flags =
        List.replicate 65536 0 from rfl]
    rw [List.length_replicate]
  rw [h1, Features.read]
  simp only [readLengthPrefixedBytes]
  rw [if_pos (by omega)]
  simp only [Option.map_some', Nat.zero_mul, Nat.add_zero, List.take_zero,
    List.reverse_nil]
  intro hc
  simp only [Option.some.injEq, Features.mk.injEq] at hc
  have hlen := congrArg List.length hc
  simp only [List.length_nil, List.length_replicate] at hlen
  omega

/-- C7 (amended): for every `Features` value of any context whose flags
vector is shorter than 65536 bytes — which covers the empty set, the
`supported()` defaults, sets with unknown high bits, and every value
readable from the wire — writing and reading back yields an equal value
(and consumes the written bytes exactly). -/
theorem features_write_read_roundtrip (ctx : FeatureContext) (f : Features ctx)
    (hlen : f.flags.length < 65536) :
    Features.read ctx f.write = some (f, []) := by
  obtain ⟨flags⟩ := f
  have hlen' : flags.length < 65536 := hlen
  rw [Features.write, Features.read]
  dsimp only
  rw [Nat.mod_eq_of_lt hlen']
  simp only [readLengthPrefixedBytes]
  have hcond : flags.length / 256 * 256 + flags.length % 256 = flags.length := by
    omega
  rw [hcond]
  rw [if_pos (by simp)]
  simp only [Option.map_some']
  rw [List.take_of_length_le (by simp), List.drop_eq_nil_of_le (by simp),
    List.reverse_reverse]

/-- Witness for C7 (amended) at the empty set, the `supported()` init
defaults, and a set with an unknown high bit. -/
theorem features_write_read_roundtrip_witness :
    Features.read .InitContext Features.supportedInit.write =
      some (Features.supportedInit, []) ∧
    Features.read .NodeContext (Features.write (⟨[]⟩ : Features .NodeContext)) =
      some (⟨[]⟩, []) ∧
    Features.read .ChannelContext
        (Features.write (⟨[0, 0, 1 <<< 6]⟩ : Features .ChannelContext)) =
      some (⟨[0, 0, 1 <<< 6]⟩, []) :=
  ⟨features_write_read_roundtrip _ _ (by decide),
   features_write_read_roundtrip _ _ (by decide),
   features_write_read_roundtrip _ _ (by decide)⟩

/-! ## Helper lemmas for monitor serialization -/

theorem decBytes_encBytes (l rest : List Nat) (h : l.length < 2 ^ 64) :
    decBytes (encBytes l ++ rest) = some (l, rest) := by
  have hlen8 : (toBeBytes8 l.length).length = 8 := rfl
  have htake : (encBytes l ++ rest).take 8 = toBeBytes8 l.length := by
    rw [encBytes, List.append_assoc, ← hlen8, List.take_left]
  have hdrop : (encBytes l ++ rest).drop 8 = l ++ rest := by
    rw [encBytes, List.append_assoc, ← hlen8, List.drop_left]
  have hlen : (encBytes l ++ rest).length = 8 + l.length + rest.length := by
    rw [encBytes, List.append_assoc, List.length_append, hlen8, List.length_append]
    omega
  rw [decBytes, htake, hdrop, fromBeBytes_toBeBytes8 h,
    if_pos (by rw [hlen]; omega)]
  rw [List.take_left, List.drop_left]

theorem decSecret_encSecret (p : Nat × List Nat) (rest : List Nat)
    (h1 : p.1 < 2 ^ 64) (h2 : p.2.length < 2 ^ 64) :
    decSecret (encSecret p ++ rest) = some (p, rest) := by
  have hlen8 : (toBeBytes8 p.1).length = 8 := rfl
  have htake : (encSecret p ++ rest).take 8 = toBeBytes8 p.1 := by
    rw [encSecret, List.append_assoc, ← hlen8, List.take_left]
  have hdrop : (encSecret p ++ rest).drop 8 = encBytes p.2 ++ rest := by
    rw [encSecret, List.append_assoc, ← hlen8, List.drop_left]
  have hge : 8 ≤ (encSecret p ++ rest).length := by
    rw [encSecret, List.append_assoc, List.length_append, hlen8]
    omega
  rw [decSecret, if_pos hge, htake, hdrop, fromBeBytes_toBeBytes8 h1,
    decBytes_encBytes _ _ h2, Option.map_some']

theorem decSecrets_encSecrets (l : List (Nat × List Nat)) (rest : List Nat)
    (hwf : ∀ p ∈ l, p.1 < 2 ^ 64 ∧ p.2.length < 2 ^ 64) :
    decSecrets l.length ((l.map encSecret).flatten ++ rest) = some (l, rest) := by
  induction l with
  | nil => simp [decSecrets]
  | cons p ps ih =>
    rw [List.length_cons, List.map_cons, List.flatten_cons, List.append_assoc,
      decSecrets]
    rw [decSecret_encSecret p _ (hwf p (by simp)).1 (hwf p (by simp)).2,
      Option.some_bind, ih (fun q hq => hwf q (by simp [hq])),
      Option.map_some']

theorem decOptBytes_encOptBytes (o : Option (List Nat)) (rest : List Nat)
    (hwf : ∀ l, o = some l → l.length < 2 ^ 64) :
    decOptBytes (encOptBytes o ++ rest) = some (o, rest) := by
  cases o with
  | none => rw [encOptBytes]; rfl
  | some l =>
    rw [encOptBytes, List.cons_append, decOptBytes,
      decBytes_encBytes _ _ (hwf l rfl), Option.map_some']

/-! ## Claim theorems for the modelled monitor and commitment entities -/

/-- C6: for every well-formed `ChannelMonitor` state, serializing with
`write_for_disk` and deserializing the produced bytes yields a monitor
equal to the original, with nothing left over — serialization is a pure
function of the state and round-trips. -/
theorem channel_monitor_write_read_roundtrip (m : ChannelMonitor)
    (hwf : m.WellFormed) :
    ChannelMonitor.readFromDisk m.writeForDisk = some (m, []) := by
  obtain ⟨hbp, hcnt, hsec, hcur, hprev⟩ := hwf
  have hlen8 : (toBeBytes8 m.revealedSecrets.length).length = 8 := rfl
  have hw : m.writeForDisk =
      encBytes m.basepoints ++
        (toBeBytes8 m.revealedSecrets.length ++
          ((m.revealedSecrets.map encSecret).flatten ++
            (encBytes m.currentRemoteCommitmentTxid ++
              encOptBytes m.prevRemoteCommitmentTxid))) := by
    rw [ChannelMonitor.writeForDisk]
    simp [List.append_assoc]
  rw [ChannelMonitor.readFromDisk, hw, decBytes_encBytes _ _ hbp,
    Option.some_bind]
  rw [if_pos (by rw [List.length_append, hlen8]; omega)]
  have htake : (toBeBytes8 m.revealedSecrets.length ++
      ((m.revealedSecrets.map encSecret).flatten ++
        (encBytes m.currentRemoteCommitmentTxid ++
          encOptBytes m.prevRemoteCommitmentTxid))).take 8 =
      toBeBytes8 m.revealedSecrets.length := by
    rw [← hlen8, List.take_left]
  have hdrop : (toBeBytes8 m.revealedSecrets.length ++
      ((m.revealedSecrets.map encSecret).flatten ++
        (encBytes m.currentRemoteCommitmentTxid ++
          encOptBytes m.prevRemoteCommitmentTxid))).drop 8 =
      (m.revealedSecrets.map encSecret).flatten ++
        (encBytes m.currentRemoteCommitmentTxid ++
          encOptBytes m.prevRemoteCommitmentTxid) := by
    rw [← hlen8, List.drop_left]
  have hopt := decOptBytes_encOptBytes m.prevRemoteCommitmentTxid [] hprev
  rw [List.append_nil] at hopt
  rw [htake, hdrop, fromBeBytes_toBeBytes8 hcnt,
    decSecrets_encSecrets _ _ hsec, Option.some_bind,
    decBytes_encBytes _ _ hcur, Option.some_bind, hopt, Option.map_some']

/-- Witness for C6 at a small concrete monitor state. -/
theorem channel_monitor_write_read_roundtrip_witness :
    ChannelMonitor.readFromDisk
        (ChannelMonitor.writeForDisk
          ⟨[1, 2, 3], [(7, [9, 9]), (6, [8])], [4, 5], some [6]⟩) =
      some (⟨[1, 2, 3], [(7, [9, 9]), (6, [8])], [4, 5], some [6]⟩, []) :=
  channel_monitor_write_read_roundtrip
    ⟨[1, 2, 3], [(7, [9, 9]), (6, [8])], [4, 5], some [6]⟩
    (by refine ⟨by decide, by decide, ?_, by decide, ?_⟩ <;> decide)

/-- C8: `get_htlc_sigs` returns one optional signature per stored HTLC, in
the stored order: the result has the same length as the stored HTLC list,
is `none` exactly at the indices whose HTLC has no
`transaction_output_index` (dust), and carries a signature at every index
whose HTLC has an output index. -/
theorem get_htlc_sigs_one_per_htlc
    (sign : HTLCOutputInCommitment → Nat → Nat → Nat)
    (tx : LocalCommitmentTransaction) (key csv : Nat) :
    (getHtlcSigs sign tx key csv).length = tx.per_htlc.length ∧
    ∀ (i : Nat) htlc osig, tx.per_htlc[i]? = some (htlc, osig) →
      ((getHtlcSigs sign tx key csv)[i]? = some none ↔
        htlc.transaction_output_index = none) ∧
      ((getHtlcSigs sign tx key csv)[i]? = some (some (sign htlc key csv)) ↔
        htlc.transaction_output_index.isSome = true) := by
  refine ⟨by simp [getHtlcSigs], ?_⟩
  intro i htlc osig hget
  have hmap : (getHtlcSigs sign tx key csv)[i]? =
      some (match htlc.transaction_output_index with
            | some _ => some (sign htlc key csv)
            | none => none) := by
    rw [getHtlcSigs, List.getElem?_map, hget, Option.map_some']
  cases hidx : htlc.transaction_output_index with
  | none => rw [hidx] at hmap; simp [hmap]
  | some v => rw [hidx] at hmap; simp [hmap, hidx]

/-- Witness for C8 on a commitment transaction with 2 dust and 3 non-dust
HTLCs: five entries, `none` at the dust index 0, a signature at index 1. -/
theorem get_htlc_sigs_one_per_htlc_witness :
    (getHtlcSigs (fun _ _ _ => 99)
        ⟨0, 0, 0,
          [(⟨true, 1000, 500, [], none⟩, none),
           (⟨false, 2000, 501, [], some 0⟩, some 10),
           (⟨true, 3000, 502, [], none⟩, none),
           (⟨false, 4000, 503, [], some 1⟩, some 11),
           (⟨true, 5000, 504, [], some 2⟩, some 12)]⟩ 7 144).length = 5 ∧
    ((getHtlcSigs (fun _ _ _ => 99)
        ⟨0, 0, 0,
          [(⟨true, 1000, 500, [], none⟩, none),
           (⟨false, 2000, 501, [], some 0⟩, some 10),
           (⟨true, 3000, 502, [], none⟩, none),
           (⟨false, 4000, 503, [], some 1⟩, some 11),
           (⟨true, 5000, 504, [], some 2⟩, some 12)]⟩ 7 144)[0]? = some none ↔
      (⟨true, 1000, 500, [], none⟩ :
        HTLCOutputInCommitment).transaction_output_index = none) := by
  constructor
  · exact (get_htlc_sigs_one_per_htlc (fun _ _ _ => 99) _ 7 144).1.trans (by decide)
  · exact ((get_htlc_sigs_one_per_htlc (fun _ _ _ => 99) _ 7 144).2 0
      ⟨true, 1000, 500, [], none⟩ none (by decide)).1
